import Mathlib

/- Verification of the Textract block-graph reducer in
   `po_invoice_discrepancy_analyzer/tools/textract_tool.py`.

   Modelling conventions for the shallow embedding:
   * a Python dict is an association list with unique keys (`dictInsert`,
     `pyLookup`), insertion keeping the position of an existing key;
   * Python's stable `list.sort(key=...)` is a stable insertion sort
     (`sortBy`) on a boolean `≤`-comparison of the sort keys;
   * `sep.join(xs)` is `pyJoin sep xs`;
   * Python list indexing (including negative indices) is `pyIdx`/`pySet`;
     block row/column indices are natural numbers, for which the only
     negative computed index is `-1` (a missing index defaults to `0`),
     so the out-of-range `IndexError` case of the source is unreachable
     and `pySet` may totalise it as a no-op;
   * bounding-box coordinates are rationals (the source only ever compares
     them);
   * the AWS side of `_run` is an environment of `Except`-valued step
     outcomes: `ClientError` / `NoCredentialsError` / any other exception. -/

/-- `sep.join(parts)` (Python `str.join`). -/
def pyJoin (sep : String) : List String → String
  | [] => ""
  | [a] => a
  | a :: b :: rest => a ++ sep ++ pyJoin sep (b :: rest)

/-- `s.strip()` (Python `str.strip`): drop leading and trailing
    whitespace. -/
def pyStrip (s : String) : String :=
  ⟨((s.data.dropWhile Char.isWhitespace).reverse.dropWhile Char.isWhitespace).reverse⟩

/-- Python index normalisation: a negative index counts from the end;
    out of range gives `none`. -/
def pyIdx (len : Nat) (i : Int) : Option Nat :=
  let j := if i < 0 then (len : Int) + i else i
  if 0 ≤ j ∧ j < (len : Int) then some j.toNat else none

/-- `l[i] = v` for a Python list (out of range: unreachable here, no-op). -/
def pySet {α : Type} (l : List α) (i : Int) (v : α) : List α :=
  match pyIdx l.length i with
  | some n => l.set n v
  | none => l

/-- `g[ri][ci] = v` for a Python list of lists: read the row at `ri`,
    mutate its entry at `ci`. -/
def pySet2 {α : Type} (g : List (List α)) (ri ci : Int) (v : α) : List (List α) :=
  match pyIdx g.length ri with
  | some r => g.set r (pySet (g.getD r []) ci v)
  | none => g

/-- Assignment `d[k] = v` into a Python dict, modelled on an association
    list with unique keys: an existing key keeps its position and receives
    the new value, a new key is appended at the end. -/
def dictInsert : List (String × String) → String → String → List (String × String)
  | [], k, v => [(k, v)]
  | p :: m, k, v => if p.1 == k then (k, v) :: m else p :: dictInsert m k v

/-- `d.get(k)` on the same dict model. -/
def pyLookup : List (String × String) → String → Option String
  | [], _ => none
  | p :: m, k => if p.1 == k then some p.2 else pyLookup m k

/-- Keys in order of first occurrence (the iteration order of a Python dict). -/
def firstOccur (l : List String) : List String :=
  l.foldl (fun ks k => if k ∈ ks then ks else ks ++ [k]) []

/-- Stable insertion: `a` goes in front of the first element `b` with
    `le a b`. -/
def insertBy {α : Type} (le : α → α → Bool) (a : α) : List α → List α
  | [] => [a]
  | b :: l => if le a b then a :: b :: l else b :: insertBy le a l

/-- Stable sort: the observable behaviour of Python `list.sort(key=...)`. -/
def sortBy {α : Type} (le : α → α → Bool) (l : List α) : List α :=
  l.foldr (insertBy le) []

/-- One relationship edge of a block: `{'Type': ..., 'Ids': [...]}`. -/
structure Relationship where
  type : String
  ids : List String
deriving DecidableEq, Repr

/-- A Textract block: the fields of the response dict that the reducer
    reads, each optional exactly as the source treats it.  `top`/`left`
    stand for `Geometry.BoundingBox.Top/Left` (absent when any level of
    that nesting is absent). -/
structure Block where
  id : String
  blockType : String
  text : Option String := none
  entityTypes : Option (List String) := none
  relationships : Option (List Relationship) := none
  rowIndex : Option Nat := none
  columnIndex : Option Nat := none
  top : Option ℚ := none
  left : Option ℚ := none
deriving DecidableEq, Repr

/-- `block_map = {block['Id']: block for block in blocks}` (a later block
    with the same id wins, as in a dict comprehension). -/
def blockMap (blocks : List Block) : String → Option Block :=
  fun i => blocks.foldl (fun acc b => if b.id == i then some b else acc) none

/-- `TextractTool._get_text_from_block`. -/
def getTextFromBlock (block : Block) (bm : String → Option Block) : String :=
  let parts0 : List String := match block.text with | some t => [t] | none => []
  let parts : List String :=
    match block.relationships with
    | none => parts0
    | some rels =>
      rels.foldl (fun ps rel =>
        if rel.type == "CHILD" then
          rel.ids.foldl (fun ps cid =>
            match bm cid with
            | some cb => if cb.blockType == "WORD" then ps ++ [cb.text.getD ""] else ps
            | none => ps) ps
        else ps) parts0
  pyStrip (pyJoin " " parts)

/-- The first id of a VALUE relationship that resolves to a block whose
    entity role is VALUE (the source's inner loop ending in `break`). -/
def resolveValueBlock (bm : String → Option Block) (rel : Relationship) : Option Block :=
  rel.ids.findSome? (fun vid =>
    match bm vid with
    | some vb => if vb.entityTypes == some ["VALUE"] then some vb else none
    | none => none)

/-- The `value_text` accumulation over a KEY block's relationships: each
    VALUE relationship that resolves overwrites the previous text. -/
def valueTextLoop (bm : String → Option Block) (kv : Block) : String :=
  (kv.relationships.getD []).foldl (fun vt rel =>
    if rel.type == "VALUE" then
      match resolveValueBlock bm rel with
      | some vb => getTextFromBlock vb bm
      | none => vt
    else vt) ""

/-- One iteration of the loop in `_extract_key_value_pairs`. -/
def processKVBlock (bm : String → Option Block) (acc : List (String × String)) (kv : Block) :
    List (String × String) :=
  if kv.entityTypes == some ["KEY"] then
    let keyText := getTextFromBlock kv bm
    let valueText := valueTextLoop bm kv
    if keyText ≠ "" ∧ valueText ≠ "" then dictInsert acc keyText valueText else acc
  else acc

/-- `TextractTool._extract_key_value_pairs`: the resulting Python dict,
    as an association list in its iteration (= insertion) order. -/
def extractKeyValuePairs (blocks keyValueBlocks : List Block) : List (String × String) :=
  keyValueBlocks.foldl (processKVBlock (blockMap blocks)) []

/-- The (name, value) pair a single KEY block tries to insert, if any. -/
def rawOf (bm : String → Option Block) (kv : Block) : Option (String × String) :=
  if kv.entityTypes == some ["KEY"] then
    let keyText := getTextFromBlock kv bm
    let valueText := valueTextLoop bm kv
    if keyText ≠ "" ∧ valueText ≠ "" then some (keyText, valueText) else none
  else none

/-- The sequence of pairs the loop inserts, in KEY-encounter order,
    before the dict merges duplicate names. -/
def rawPairs (bm : String → Option Block) (keyValueBlocks : List Block) :
    List (String × String) :=
  keyValueBlocks.filterMap (rawOf bm)

/-- Sort key of a cell: `(RowIndex or 0, ColumnIndex or 0)`. -/
def cellKey (c : Block) : Nat × Nat := (c.rowIndex.getD 0, c.columnIndex.getD 0)

/-- Lexicographic comparison of cell sort keys. -/
def cellLe (a b : Block) : Bool :=
  decide ((cellKey a).1 < (cellKey b).1 ∨
    ((cellKey a).1 = (cellKey b).1 ∧ (cellKey a).2 ≤ (cellKey b).2))

/-- The CELL children of a TABLE block (loop over its CHILD relationships,
    dangling ids and non-CELL children skipped). -/
def resolvedCells (bm : String → Option Block) (tableBlock : Block) : List Block :=
  (tableBlock.relationships.getD []).foldl (fun cs rel =>
    if rel.type == "CHILD" then
      rel.ids.foldl (fun cs cid =>
        match bm cid with
        | some cb => if cb.blockType == "CELL" then cs ++ [cb] else cs
        | none => cs) cs
    else cs) []

/-- `max(cell.get('RowIndex', 0) for cell in cells)` (cells nonempty,
    indices natural, so the `0` seed is neutral). -/
def maxRowOf (cells : List Block) : Nat :=
  cells.foldl (fun m c => max m (c.rowIndex.getD 0)) 0

def maxColOf (cells : List Block) : Nat :=
  cells.foldl (fun m c => max m (c.columnIndex.getD 0)) 0

/-- `table_grid[row][col] = cell_text` with Python (negative) indexing,
    where `row = RowIndex-1`, `col = ColumnIndex-1`. -/
def placeCell (bm : String → Option Block) (g : List (List (Option String)))
    (cell : Block) : List (List (Option String)) :=
  pySet2 g ((cell.rowIndex.getD 0 : Int) - 1) ((cell.columnIndex.getD 0 : Int) - 1)
    (some (getTextFromBlock cell bm))

/-- The grid-assembly phase of `_extract_table_content`: sort the cells,
    size the grid from the maxima over the sorted cells, fill cell texts
    in, in sorted order. -/
def tableGrid (bm : String → Option Block) (cells : List Block) :
    List (List (Option String)) :=
  (sortBy cellLe cells).foldl (placeCell bm)
    (List.replicate (maxRowOf (sortBy cellLe cells) + 1)
      (List.replicate (maxColOf (sortBy cellLe cells) + 1) none))

/-- Grid access used to state properties of the assembled grid. -/
def gridGet {α : Type} (g : List (List α)) (i j : Nat) : Option α :=
  (g[i]?).bind (fun row => row[j]?)

/-- `"| " + " | ".join(row) + " |"` after `row = [cell or "" for cell in row]`
    (`None` and `""` both render as the empty string). -/
def renderRow (row : List (Option String)) : String :=
  "| " ++ pyJoin " | " (row.map (fun c => c.getD "")) ++ " |"

/-- The header separator: as many `---` fields as the first row has. -/
def sepRow (k : Nat) : String :=
  "| " ++ pyJoin " | " (List.replicate k "---") ++ " |"

/-- The markdown lines: every grid row in order, with the separator
    inserted after the first row. -/
def renderTable : List (List (Option String)) → List String
  | [] => []
  | r0 :: rest => renderRow r0 :: sepRow r0.length :: rest.map renderRow

/-- `TextractTool._extract_table_content`.  (`cellBlocks` is a parameter of
    the Python method that its body never reads.) -/
def extractTableContent (blocks : List Block) (tableBlock : Block)
    (cellBlocks : List Block) : String :=
  let bm := blockMap blocks
  let tableCells := resolvedCells bm tableBlock
  if tableCells = [] then ""
  else
    match tableGrid bm tableCells with
    | [] => ""
    | r0 :: rest => if r0 = [] then "" else pyJoin "\n" (renderTable (r0 :: rest))

/-- Sort key of a LINE block:
    `(bbox.get('Top', 0), bbox.get('Left', 0))`. -/
def lineKey (b : Block) : ℚ × ℚ := (b.top.getD 0, b.left.getD 0)

/-- Lexicographic comparison of LINE sort keys. -/
def lineLe (a b : Block) : Bool :=
  decide ((lineKey a).1 < (lineKey b).1 ∨
    ((lineKey a).1 = (lineKey b).1 ∧ (lineKey a).2 ≤ (lineKey b).2))

/-- `TextractTool._extract_text_content`.  (`blocks` is a parameter of the
    Python method that its body never reads.) -/
def extractTextContent (blocks textBlocks : List Block) : String :=
  let sorted := sortBy lineLe textBlocks
  pyJoin "\n" (sorted.foldl (fun acc b =>
    let t := pyStrip (b.text.getD "")
    if t ≠ "" then acc ++ [t] else acc) [])

def textBlocksOf (blocks : List Block) : List Block :=
  blocks.filter (·.blockType == "LINE")

def tableBlocksOf (blocks : List Block) : List Block :=
  blocks.filter (·.blockType == "TABLE")

def cellBlocksOf (blocks : List Block) : List Block :=
  blocks.filter (·.blockType == "CELL")

def keyValueBlocksOf (blocks : List Block) : List Block :=
  blocks.filter (·.blockType == "KEY_VALUE_SET")

/-- The `**key:** value` lines of the form-field subsection. -/
def pairLines (blocks : List Block) : List String :=
  (extractKeyValuePairs blocks (keyValueBlocksOf blocks)).map
    (fun p => "**" ++ p.1 ++ ":** " ++ p.2)

/-- The elements the table loop appends: each non-empty rendered table
    followed by a blank line. -/
def tableLines (blocks : List Block) : List String :=
  (tableBlocksOf blocks).foldl (fun acc tb =>
    let tc := extractTableContent blocks tb (cellBlocksOf blocks)
    if tc ≠ "" then acc ++ [tc, ""] else acc) []

/-- The `result` list of `_process_textract_response`, before `'\n'.join`. -/
def responseResultList (blocks : List Block) (docType : String) : List String :=
  ["## " ++ docType ++ " Document Analysis\n"]
  ++ (if keyValueBlocksOf blocks ≠ [] then
        ["### Key-Value Pairs (Forms)", ""] ++ pairLines blocks ++ [""] else [])
  ++ (if tableBlocksOf blocks ≠ [] then ["### Tables", ""] ++ tableLines blocks else [])
  ++ (if textBlocksOf blocks ≠ [] then
        ["### Text Content", "", extractTextContent blocks (textBlocksOf blocks)] else [])

/-- `TextractTool._process_textract_response`. -/
def processTextractResponse (blocks : List Block) (docType : String) : String :=
  pyJoin "\n" (responseResultList blocks docType)

/-- Outcome of one AWS call: normal return is `Except.ok`; the three
    classes of exception the source distinguishes are `ClientError`,
    `NoCredentialsError`, and anything else. -/
inductive AwsExn
  | clientError (code msg : String)
  | noCredentials (msg : String)
  | other (msg : String)
deriving DecidableEq, Repr

/-- `str(e)` of an exception. -/
def exnMsg : AwsExn → String
  | .clientError _ m => m
  | .noCredentials m => m
  | .other m => m

/-- The environment `_run` executes against: its string arguments, the
    file-existence checks, and the outcome of every AWS step (the two
    uploads and two analyses are sequenced; the three cleanup deletions
    are abstracted into one outcome, since a `ClientError` there is
    swallowed and anything else propagates identically). -/
structure Env where
  invoicePath : String
  poPath : String
  awsRegion : String := "us-east-1"
  s3Bucket : String := ""
  invoiceExists : Bool
  poExists : Bool
  initClients : Except AwsExn Unit
  createBucket : Except AwsExn Unit
  uploadInvoice : Except AwsExn Unit
  uploadPo : Except AwsExn Unit
  analyzeInvoice : Except AwsExn (List Block)
  analyzePo : Except AwsExn (List Block)
  cleanup : Except AwsExn Unit

/-- The final success string of `_run`. -/
def finalReport (invoiceAnalysis poAnalysis : String) : String :=
  "# INVOICE DOCUMENT ANALYSIS\n" ++ invoiceAnalysis ++
    "\n\n---\n\n# PURCHASE ORDER DOCUMENT ANALYSIS\n" ++ poAnalysis

/-- `_run` from the upload step on.  `Except.error m` is an exception that
    escapes every inner handler and reaches the top-level `except`. -/
def runAfterBucket (env : Env) : Except String String :=
  match env.uploadInvoice with
  | .error (.clientError _ m) => .ok ("Error uploading files to S3: " ++ m)
  | .error e => .error (exnMsg e)
  | .ok _ =>
    match env.uploadPo with
    | .error (.clientError _ m) => .ok ("Error uploading files to S3: " ++ m)
    | .error e => .error (exnMsg e)
    | .ok _ =>
      match env.analyzeInvoice with
      | .error (.clientError _ m) => .ok ("Error analyzing documents with Textract: " ++ m)
      | .error e => .error (exnMsg e)
      | .ok invoiceBlocks =>
        match env.analyzePo with
        | .error (.clientError _ m) => .ok ("Error analyzing documents with Textract: " ++ m)
        | .error e => .error (exnMsg e)
        | .ok poBlocks =>
          let invoiceAnalysis := processTextractResponse invoiceBlocks "INVOICE"
          let poAnalysis := processTextractResponse poBlocks "PURCHASE ORDER"
          match env.cleanup with
          | .error (.clientError _ _) => .ok (finalReport invoiceAnalysis poAnalysis)
          | .error e => .error (exnMsg e)
          | .ok _ => .ok (finalReport invoiceAnalysis poAnalysis)

/-- The body of `_run` inside its top-level `try`.  `Except.ok` is an
    ordinary `return` (early error strings included); `Except.error m` is
    an exception reaching the top-level handler. -/
def runModel (env : Env) : Except String String :=
  if env.invoiceExists = false then
    .ok ("Error: Invoice file not found at path: " ++ env.invoicePath)
  else if env.poExists = false then
    .ok ("Error: PO file not found at path: " ++ env.poPath)
  else
    match env.initClients with
    | .error (.noCredentials _) =>
      .ok "Error: AWS credentials not found. Please configure your AWS credentials."
    | .error e => .ok ("Error initializing AWS clients: " ++ exnMsg e)
    | .ok _ =>
      if env.s3Bucket = "" then
        match env.createBucket with
        | .error (.clientError code m) =>
          if code ≠ "BucketAlreadyOwnedByYou" then
            .ok ("Error creating S3 bucket: " ++ m)
          else runAfterBucket env
        | .error e => .error (exnMsg e)
        | .ok _ => runAfterBucket env
      else runAfterBucket env

/-- `TextractTool._run`: the top-level `except Exception` turns any escaped
    exception into an `Error ...` string, so the tool always returns a
    string. -/
def run (env : Env) : String :=
  match runModel env with
  | .ok s => s
  | .error m => "Error processing documents with Textract: " ++ m

/- Concrete block collections used by counterexamples and witnesses. -/

/-- The spec's round-trip table: four cells at (1,1) (1,2) (2,1) (2,2). -/
def rtTable : Block :=
  { id := "T", blockType := "TABLE",
    relationships := some [⟨"CHILD", ["c11", "c12", "c21", "c22"]⟩] }

def rtC11 : Block :=
  { id := "c11", blockType := "CELL", text := some "Item",
    rowIndex := some 1, columnIndex := some 1 }

def rtC12 : Block :=
  { id := "c12", blockType := "CELL", text := some "Qty",
    rowIndex := some 1, columnIndex := some 2 }

def rtC21 : Block :=
  { id := "c21", blockType := "CELL", text := some "Widget",
    rowIndex := some 2, columnIndex := some 1 }

def rtC22 : Block :=
  { id := "c22", blockType := "CELL", text := some "3",
    rowIndex := some 2, columnIndex := some 2 }

def rtBlocks : List Block := [rtTable, rtC11, rtC12, rtC21, rtC22]

/-- C1.  The claim (and the spec's round-trip scenario) requires the grid
    for cells spanning rows 1..R and columns 1..C to have extent R × C and
    the rendered table to have R+1 lines of C cell fields.  The code
    allocates `max_row + 1` rows and `max_col + 1` columns although the
    indices are 1-based, so on the spec's own 2×2 round-trip table it
    renders an extra empty column in every line and an extra all-empty
    row: 4 lines of 3 cell fields instead of 3 lines of 2. -/
theorem extractTableContent_roundTrip_extra_row_col :
    extractTableContent rtBlocks rtTable (cellBlocksOf rtBlocks) =
      "| Item | Qty |  |\n| --- | --- | --- |\n| Widget | 3 |  |\n|  |  |  |"
    ∧ (extractTableContent rtBlocks rtTable (cellBlocksOf rtBlocks)).data.count '\n' = 3
    ∧ (tableGrid (blockMap rtBlocks) (resolvedCells (blockMap rtBlocks) rtTable)).length = 3
    ∧ (tableGrid (blockMap rtBlocks) (resolvedCells (blockMap rtBlocks) rtTable)).map
        List.length = [3, 3, 3] := by
  refine ⟨?_, ?_, ?_, ?_⟩ <;> decide

/-- The text contribution of one relationship of a KEY block: `some` iff it
    is a VALUE relationship with an id resolving to a VALUE-role block. -/
def relValueText (bm : String → Option Block) (rel : Relationship) : Option String :=
  if rel.type == "VALUE" then
    (resolveValueBlock bm rel).map (fun vb => getTextFromBlock vb bm)
  else none

theorem valueTextLoop_foldl_char (bm : String → Option Block) :
    ∀ (rels : List Relationship) (acc : String),
      rels.foldl (fun vt rel =>
        if rel.type == "VALUE" then
          match resolveValueBlock bm rel with
          | some vb => getTextFromBlock vb bm
          | none => vt
        else vt) acc
      = match (rels.filterMap (relValueText bm)).getLast? with
        | some t => t
        | none => acc := by
  intro rels
  induction rels with
  | nil => intro acc; rfl
  | cons r rs ih =>
    intro acc
    rw [List.foldl_cons, ih]
    rcases hty : (r.type == "VALUE") with _ | _
    · simp [List.filterMap_cons, relValueText, hty]
    · rcases hres : resolveValueBlock bm r with _ | vb
      · simp [List.filterMap_cons, relValueText, hty, hres]
      · simp only [List.filterMap_cons, relValueText, hty, if_true, hres, Option.map_some']
        rcases hrest : (rs.filterMap (relValueText bm)).getLast? with _ | t
        · rw [List.getLast?_eq_none_iff] at hrest
          simp [hrest, hty, hres]
        · have hne : rs.filterMap (relValueText bm) ≠ [] := by
            intro h; rw [h] at hrest; simp at hrest
          rcases hlist : rs.filterMap (relValueText bm) with _ | ⟨b, bs⟩
          · exact absurd hlist hne
          · rw [hlist] at hrest
            simp [List.getLast?_cons_cons, hrest, hty, hres]

/-- C4 (amended): when a KEY block carries several VALUE relationships, the
    emitted value comes from the LAST VALUE relationship that resolves to a
    VALUE-role block (within that relationship, the first resolving id):
    each resolving relationship overwrites the previous text, because the
    source's `break` only leaves the inner loop over ids. -/
theorem valueTextLoop_last_resolving (bm : String → Option Block) (kv : Block) :
    valueTextLoop bm kv =
      (((kv.relationships.getD []).filterMap (relValueText bm)).getLast?).getD "" := by
  rw [valueTextLoop, valueTextLoop_foldl_char]
  rcases ((kv.relationships.getD []).filterMap (relValueText bm)).getLast? with _ | t <;> rfl

/-- A KEY block with two VALUE relationships, both resolving. -/
def c4Key : Block :=
  { id := "kM", blockType := "KEY_VALUE_SET", entityTypes := some ["KEY"],
    text := some "K",
    relationships := some [⟨"VALUE", ["vA"]⟩, ⟨"VALUE", ["vB"]⟩] }

def c4ValA : Block :=
  { id := "vA", blockType := "KEY_VALUE_SET", entityTypes := some ["VALUE"],
    text := some "a" }

def c4ValB : Block :=
  { id := "vB", blockType := "KEY_VALUE_SET", entityTypes := some ["VALUE"],
    text := some "b" }

def c4Blocks : List Block := [c4Key, c4ValA, c4ValB]

/-- C4, counterexample to the claim as stated: the first VALUE relationship
    of `c4Key` resolves to the block with text "a", yet the emitted pair
    carries "b", the text reached through the second VALUE relationship —
    so later VALUE relationships do determine the emitted value. -/
theorem extractKeyValuePairs_second_value_relationship_wins :
    resolveValueBlock (blockMap c4Blocks) ⟨"VALUE", ["vA"]⟩ = some c4ValA
    ∧ getTextFromBlock c4ValA (blockMap c4Blocks) = "a"
    ∧ extractKeyValuePairs c4Blocks (keyValueBlocksOf c4Blocks) = [("K", "b")]
    ∧ extractKeyValuePairs c4Blocks (keyValueBlocksOf c4Blocks) ≠ [("K", "a")] := by
  refine ⟨?_, ?_, ?_, ?_⟩ <;> decide

/-- C5: a KEY block none of whose VALUE relationships resolves (through the
    block index) to an existing VALUE-role block — dangling ids included —
    or whose composed key text is empty, or whose resolved value text is
    empty, contributes nothing to the key-value dict: its loop iteration
    returns the accumulator unchanged, so no pair with an empty name or
    value is ever emitted. -/
theorem processKVBlock_drops (bm : String → Option Block)
    (acc : List (String × String)) (kv : Block)
    (hdrop :
      (∀ rel ∈ kv.relationships.getD [], rel.type = "VALUE" →
        resolveValueBlock bm rel = none)
      ∨ getTextFromBlock kv bm = "" ∨ valueTextLoop bm kv = "") :
    processKVBlock bm acc kv = acc := by
  have hval : (∀ rel ∈ kv.relationships.getD [], rel.type = "VALUE" →
      resolveValueBlock bm rel = none) → valueTextLoop bm kv = "" := by
    intro h
    rw [valueTextLoop, valueTextLoop_foldl_char]
    have hnil : (kv.relationships.getD []).filterMap (relValueText bm) = [] := by
      rw [List.filterMap_eq_nil_iff]
      intro rel hrel
      rcases hty : (rel.type == "VALUE") with _ | _
      · simp [relValueText, hty]
      · have := h rel hrel (by simpa using hty)
        simp [relValueText, hty, this]
    simp [hnil]
  rw [processKVBlock]
  rcases hk : (kv.entityTypes == some ["KEY"]) with _ | _
  · rfl
  · simp only [if_true]
    rcases hdrop with h | h | h
    · rw [if_neg]; intro ⟨_, hv⟩; exact hv (hval h)
    · rw [if_neg]; intro ⟨hkey, _⟩; exact hkey h
    · rw [if_neg]; intro ⟨_, hv⟩; exact hv h

/-- A KEY block whose single VALUE relationship dangles. -/
def c5Key : Block :=
  { id := "k5", blockType := "KEY_VALUE_SET", entityTypes := some ["KEY"],
    text := some "Orphan", relationships := some [⟨"VALUE", ["missing"]⟩] }

def c5Blocks : List Block := [c5Key]

/-- C5, witness: the dangling-id KEY block leaves the accumulator alone. -/
theorem processKVBlock_drops_witness :
    processKVBlock (blockMap c5Blocks) [("x", "y")] c5Key = [("x", "y")] :=
  processKVBlock_drops (blockMap c5Blocks) [("x", "y")] c5Key (Or.inl (by decide))

/-- The flat description of one CHILD id's text contribution. -/
def wordChildText (bm : String → Option Block) (cid : String) : Option String :=
  match bm cid with
  | some cb => if cb.blockType == "WORD" then some (cb.text.getD "") else none
  | none => none

theorem textParts_inner (bm : String → Option Block) :
    ∀ (ids : List String) (ps : List String),
      ids.foldl (fun ps cid =>
        match bm cid with
        | some cb => if cb.blockType == "WORD" then ps ++ [cb.text.getD ""] else ps
        | none => ps) ps
      = ps ++ ids.filterMap (wordChildText bm) := by
  intro ids
  induction ids with
  | nil => intro ps; simp
  | cons cid rest ih =>
    intro ps
    rw [List.foldl_cons, List.filterMap_cons]
    rcases h : bm cid with _ | cb
    · simp only [wordChildText, h, ih]
    · rcases hw : (cb.blockType == "WORD") with _ | _
      · simp only [wordChildText, h, hw, ih]; rfl
      · simp only [wordChildText, h, hw, if_true, ih, List.append_assoc]; rfl

theorem textParts_outer (bm : String → Option Block) :
    ∀ (rels : List Relationship) (ps : List String),
      rels.foldl (fun ps rel =>
        if rel.type == "CHILD" then
          rel.ids.foldl (fun ps cid =>
            match bm cid with
            | some cb => if cb.blockType == "WORD" then ps ++ [cb.text.getD ""] else ps
            | none => ps) ps
        else ps) ps
      = ps ++ (rels.filter (fun rel => rel.type == "CHILD")).flatMap
          (fun rel => rel.ids.filterMap (wordChildText bm)) := by
  intro rels
  induction rels with
  | nil => intro ps; simp
  | cons rel rest ih =>
    intro ps
    rw [List.foldl_cons, List.filter_cons]
    rcases h : (rel.type == "CHILD") with _ | _
    · simp only [h, Bool.false_eq_true, if_false, ih, cond_false]
    · simp only [h, if_true, cond_true]
      rw [textParts_inner bm, ih, List.flatMap_cons, List.append_assoc]

/-- C7: the composed text of a block is its own literal text (when present)
    followed, in relationship order, by the literal texts of its
    CHILD-related WORD blocks — empty or absent texts included as empty
    parts — joined with a single space between adjacent parts and then
    stripped of leading/trailing whitespace. -/
theorem getTextFromBlock_flat (block : Block) (bm : String → Option Block) :
    getTextFromBlock block bm =
      pyStrip (pyJoin " "
        ((match block.text with | some t => [t] | none => [])
          ++ ((block.relationships.getD []).filter (fun rel => rel.type == "CHILD")).flatMap
              (fun rel => rel.ids.filterMap (wordChildText bm)))) := by
  rw [getTextFromBlock]
  rcases h : block.relationships with _ | rels
  · simp [h]
  · simp only [h, Option.getD_some, textParts_outer bm]

/-- Folding the raw pair sequence into a Python dict. -/
def dictOf (raw : List (String × String)) : List (String × String) :=
  raw.foldl (fun m p => dictInsert m p.1 p.2) []

theorem pyLookup_dictInsert (m : List (String × String)) (k0 v0 k : String) :
    pyLookup (dictInsert m k0 v0) k = if k = k0 then some v0 else pyLookup m k := by
  induction m with
  | nil =>
    by_cases hk : k = k0
    · subst hk; simp [dictInsert, pyLookup]
    · have h1 : (k0 == k) = false := by simpa using Ne.symm hk
      simp [dictInsert, pyLookup, hk, h1]
  | cons p m ih =>
    rcases hp : (p.1 == k0) with _ | _
    · have hp' : p.1 ≠ k0 := by simpa using hp
      by_cases hk : k = k0
      · subst hk
        have h1 : (p.1 == k) = false := by simpa using hp'
        simp [dictInsert, hp, pyLookup, h1, ih]
      · simp [dictInsert, hp, pyLookup, ih, hk]
    · have hp' : p.1 = k0 := by simpa using hp
      by_cases hk : k = k0
      · subst hk; simp [dictInsert, hp, pyLookup]
      · have h1 : (k0 == k) = false := by simpa using Ne.symm hk
        have h2 : (p.1 == k) = false := by rw [hp']; exact h1
        simp [dictInsert, hp, pyLookup, hk, h1, h2]

theorem map_fst_dictInsert (m : List (String × String)) (k v : String) :
    (dictInsert m k v).map Prod.fst =
      if k ∈ m.map Prod.fst then m.map Prod.fst else m.map Prod.fst ++ [k] := by
  induction m with
  | nil => simp [dictInsert]
  | cons p m ih =>
    rcases hp : (p.1 == k) with _ | _
    · have hp' : ¬ k = p.1 := Ne.symm (by simpa using hp)
      by_cases hk : k ∈ m.map Prod.fst
      · simp [dictInsert, hp, ih, hk, hp']
      · simp [dictInsert, hp, ih, hk, hp']
    · have hp' : p.1 = k := by simpa using hp
      simp [dictInsert, hp, hp']

theorem processKVBlock_rawOf (bm : String → Option Block)
    (acc : List (String × String)) (kv : Block) :
    processKVBlock bm acc kv =
      match rawOf bm kv with
      | some p => dictInsert acc p.1 p.2
      | none => acc := by
  rw [processKVBlock, rawOf]
  rcases hk : (kv.entityTypes == some ["KEY"]) with _ | _
  · rfl
  · simp only [if_true]
    split <;> rfl

theorem foldl_processKVBlock_eq (bm : String → Option Block) :
    ∀ (l : List Block) (acc : List (String × String)),
      l.foldl (processKVBlock bm) acc =
        (l.filterMap (rawOf bm)).foldl (fun m p => dictInsert m p.1 p.2) acc := by
  intro l
  induction l with
  | nil => intro acc; rfl
  | cons kv l ih =>
    intro acc
    rw [List.foldl_cons, List.filterMap_cons, processKVBlock_rawOf]
    rcases h : rawOf bm kv with _ | p
    · exact ih acc
    · rw [List.foldl_cons]; exact ih _

/-- `extractKeyValuePairs` is the Python dict built from the raw pair
    sequence. -/
theorem extractKeyValuePairs_eq_dictOf (blocks keyValueBlocks : List Block) :
    extractKeyValuePairs blocks keyValueBlocks =
      dictOf (rawPairs (blockMap blocks) keyValueBlocks) := by
  rw [extractKeyValuePairs, dictOf, rawPairs, foldl_processKVBlock_eq]

theorem pyLookup_dictOf_foldl :
    ∀ (raw : List (String × String)) (acc : List (String × String)) (k : String),
      pyLookup (raw.foldl (fun m p => dictInsert m p.1 p.2) acc) k =
        match (raw.filter (fun p => p.1 == k)).getLast? with
        | some p => some p.2
        | none => pyLookup acc k := by
  intro raw
  induction raw with
  | nil => intro acc k; rfl
  | cons p raw ih =>
    intro acc k
    rw [List.foldl_cons, ih, List.filter_cons]
    rcases hp : (p.1 == k) with _ | _
    · have hp' : ¬ k = p.1 := Ne.symm (by simpa using hp)
      rcases h : (raw.filter (fun p => p.1 == k)).getLast? with _ | q
      · simp [h, pyLookup_dictInsert, hp']
      · simp [h]
    · have hp' : p.1 = k := by simpa using hp
      rcases h : (raw.filter (fun p => p.1 == k)).getLast? with _ | q
      · rw [List.getLast?_eq_none_iff] at h
        simp [h, pyLookup_dictInsert, hp', List.getLast?_singleton]
      · have hne : raw.filter (fun p => p.1 == k) ≠ [] := by
          intro hh; rw [hh] at h; simp at h
        rcases hl : raw.filter (fun p => p.1 == k) with _ | ⟨b, bs⟩
        · exact absurd hl hne
        · rw [hl] at h
          rw [hl, if_pos rfl, List.getLast?_cons_cons, h]

theorem map_fst_dictOf_foldl :
    ∀ (raw : List (String × String)) (acc : List (String × String)),
      (raw.foldl (fun m p => dictInsert m p.1 p.2) acc).map Prod.fst =
        (raw.map Prod.fst).foldl
          (fun ks k0 => if k0 ∈ ks then ks else ks ++ [k0]) (acc.map Prod.fst) := by
  intro raw
  induction raw with
  | nil => intro acc; rfl
  | cons p raw ih =>
    intro acc
    rw [List.foldl_cons, List.map_cons, List.foldl_cons, ih, map_fst_dictInsert]

theorem firstOccur_foldl_nodup :
    ∀ (l : List String) (ks : List String), ks.Nodup →
      (l.foldl (fun ks k => if k ∈ ks then ks else ks ++ [k]) ks).Nodup := by
  intro l
  induction l with
  | nil => intro ks h; exact h
  | cons k l ih =>
    intro ks h
    rw [List.foldl_cons]
    by_cases hk : k ∈ ks
    · simpa [hk] using ih ks h
    · have : (ks ++ [k]).Nodup := by
        simp [List.nodup_append, h, hk]
      simpa [hk] using ih _ this

/-- C2 (amended): the form-field extractor returns a Python dict, so the
    output names are exactly the raw names deduplicated in order of first
    occurrence (hence pairwise distinct — duplicate names are merged into
    a single entry, not preserved as separate entries), and the value
    stored under a name is the one from the LAST KEY block that emitted
    that name. -/
theorem extractKeyValuePairs_dict_semantics (blocks keyValueBlocks : List Block) :
    (extractKeyValuePairs blocks keyValueBlocks).map Prod.fst
      = firstOccur ((rawPairs (blockMap blocks) keyValueBlocks).map Prod.fst)
    ∧ ((extractKeyValuePairs blocks keyValueBlocks).map Prod.fst).Nodup
    ∧ ∀ k, pyLookup (extractKeyValuePairs blocks keyValueBlocks) k
        = (((rawPairs (blockMap blocks) keyValueBlocks).filter
              (fun p => p.1 == k)).getLast?).map Prod.snd := by
  refine ⟨?_, ?_, ?_⟩
  · rw [extractKeyValuePairs_eq_dictOf, dictOf, map_fst_dictOf_foldl, firstOccur]
    rfl
  · rw [extractKeyValuePairs_eq_dictOf, dictOf, map_fst_dictOf_foldl]
    exact firstOccur_foldl_nodup _ _ List.nodup_nil
  · intro k
    rw [extractKeyValuePairs_eq_dictOf, dictOf, pyLookup_dictOf_foldl]
    rcases h : ((rawPairs (blockMap blocks) keyValueBlocks).filter
        (fun p => p.1 == k)).getLast? with _ | q <;> rw [h] <;> rfl

/-- Two distinct KEY blocks composing to the same name "k". -/
def c2KeyA : Block :=
  { id := "kA", blockType := "KEY_VALUE_SET", entityTypes := some ["KEY"],
    text := some "k", relationships := some [⟨"VALUE", ["vA2"]⟩] }

def c2ValA : Block :=
  { id := "vA2", blockType := "KEY_VALUE_SET", entityTypes := some ["VALUE"],
    text := some "a" }

def c2KeyB : Block :=
  { id := "kB", blockType := "KEY_VALUE_SET", entityTypes := some ["KEY"],
    text := some "k", relationships := some [⟨"VALUE", ["vB2"]⟩] }

def c2ValB : Block :=
  { id := "vB2", blockType := "KEY_VALUE_SET", entityTypes := some ["VALUE"],
    text := some "b" }

def c2Blocks : List Block := [c2KeyA, c2ValA, c2KeyB, c2ValB]

/-- C2, counterexample to the claim as stated: two distinct KEY blocks both
    compose to the name "k" (the raw sequence has both pairs), but the
    output contains a single merged entry, not two separate ones. -/
theorem extractKeyValuePairs_duplicate_names_merge :
    rawPairs (blockMap c2Blocks) (keyValueBlocksOf c2Blocks) = [("k", "a"), ("k", "b")]
    ∧ extractKeyValuePairs c2Blocks (keyValueBlocksOf c2Blocks) = [("k", "b")]
    ∧ (extractKeyValuePairs c2Blocks (keyValueBlocksOf c2Blocks)).length = 1 := by
  refine ⟨?_, ?_, ?_⟩ <;> decide

theorem insertBy_perm {α : Type} (le : α → α → Bool) (a : α) :
    ∀ l : List α, (insertBy le a l).Perm (a :: l) := by
  intro l
  induction l with
  | nil => exact List.Perm.refl _
  | cons b l ih =>
    rw [insertBy]
    split
    · exact List.Perm.refl _
    · exact (ih.cons b).trans (List.Perm.swap a b l)

theorem sortBy_perm {α : Type} (le : α → α → Bool) :
    ∀ l : List α, (sortBy le l).Perm l := by
  intro l
  induction l with
  | nil => exact List.Perm.refl _
  | cons a l ih => exact (insertBy_perm le a (sortBy le l)).trans (ih.cons a)

theorem filter_insertBy {α κ : Type} [DecidableEq κ] (le : α → α → Bool) (key : α → κ)
    (hEqLe : ∀ a b, key a = key b → le a b = true) (a : α) (k : κ) :
    ∀ l : List α, (insertBy le a l).filter (fun x => decide (key x = k)) =
      if decide (key a = k) = true then a :: l.filter (fun x => decide (key x = k))
      else l.filter (fun x => decide (key x = k)) := by
  intro l
  induction l with
  | nil =>
    rw [insertBy]
    rcases h : (decide (key a = k)) with _ | _ <;> simp [List.filter, h]
  | cons b l ih =>
    rw [insertBy]
    rcases hle : le a b with _ | _
    · have hab : key a ≠ key b := fun h => by rw [hEqLe a b h] at hle; exact Bool.noConfusion hle
      rcases hak : (decide (key a = k)) with _ | _
      · simp only [Bool.false_eq_true, if_false, List.filter_cons, ih, hak]
      · have hak' : key a = k := of_decide_eq_true hak
        have hbk : (decide (key b = k)) = false := by
          rw [decide_eq_false_iff_not]
          intro hh; exact hab (hak'.trans hh.symm)
        simp only [Bool.false_eq_true, if_false, if_true, List.filter_cons, ih, hak, hbk]
    · simp only [if_true, List.filter_cons]

theorem sortBy_filter_key {α κ : Type} [DecidableEq κ] (le : α → α → Bool) (key : α → κ)
    (hEqLe : ∀ a b, key a = key b → le a b = true) (k : κ) :
    ∀ l : List α, (sortBy le l).filter (fun x => decide (key x = k)) =
      l.filter (fun x => decide (key x = k)) := by
  intro l
  induction l with
  | nil => rfl
  | cons a l ih =>
    have hstep : sortBy le (a :: l) = insertBy le a (sortBy le l) := rfl
    rw [hstep, filter_insertBy le key hEqLe, ih, List.filter_cons]

theorem insertBy_head? {α : Type} (le : α → α → Bool) (a : α) :
    ∀ l : List α, (insertBy le a l).head? = some a ∨ (insertBy le a l).head? = l.head? := by
  intro l
  cases l with
  | nil => left; rfl
  | cons b l =>
    rw [insertBy]
    split
    · left; rfl
    · right; rfl

theorem chain'_insertBy {α : Type} (le : α → α → Bool)
    (htot : ∀ a b, le a b = true ∨ le b a = true) (a : α) :
    ∀ l : List α, List.Chain' (fun x y => le x y = true) l →
      List.Chain' (fun x y => le x y = true) (insertBy le a l) := by
  intro l
  induction l with
  | nil => intro _; simp [insertBy]
  | cons b l ih =>
    intro h
    rw [insertBy]
    rcases hle : le a b with _ | _
    · have hba : le b a = true := by
        rcases htot a b with h' | h'
        · rw [h'] at hle; exact absurd hle Bool.noConfusion
        · exact h'
      simp only [Bool.false_eq_true, if_false]
      rw [List.chain'_cons']
      refine ⟨?_, ih (List.chain'_cons'.1 h).2⟩
      intro x hx
      rcases insertBy_head? le a l with hh | hh
      · rw [hh] at hx; cases hx; exact hba
      · rw [hh] at hx
        exact (List.chain'_cons'.1 h).1 x hx
    · simp only [if_true]
      rw [List.chain'_cons]
      exact ⟨hle, h⟩

theorem sortBy_chain' {α : Type} (le : α → α → Bool)
    (htot : ∀ a b, le a b = true ∨ le b a = true) :
    ∀ l : List α, List.Chain' (fun x y => le x y = true) (sortBy le l) := by
  intro l
  induction l with
  | nil => simp [sortBy]
  | cons a l ih => exact chain'_insertBy le htot a (sortBy le l) ih

theorem lineLe_total : ∀ a b : Block, lineLe a b = true ∨ lineLe b a = true := by
  intro a b
  rw [lineLe, lineLe, decide_eq_true_eq, decide_eq_true_eq]
  rcases lt_trichotomy (lineKey a).1 (lineKey b).1 with h | h | h
  · exact Or.inl (Or.inl h)
  · rcases le_total (lineKey a).2 (lineKey b).2 with h2 | h2
    · exact Or.inl (Or.inr ⟨h, h2⟩)
    · exact Or.inr (Or.inr ⟨h.symm, h2⟩)
  · exact Or.inr (Or.inl h)

theorem lineLe_of_key_eq : ∀ a b : Block, lineKey a = lineKey b → lineLe a b = true := by
  intro a b h
  rw [lineLe, decide_eq_true_eq]
  exact Or.inr ⟨congrArg Prod.fst h, le_of_eq (congrArg Prod.snd h)⟩

/-- The line a LINE block contributes, if its stripped text is non-empty. -/
def lineText (b : Block) : Option String :=
  let t := pyStrip (b.text.getD "")
  if t ≠ "" then some t else none

theorem textLines_foldl (l : List Block) :
    ∀ acc : List String,
      l.foldl (fun acc b =>
        let t := pyStrip (b.text.getD "")
        if t ≠ "" then acc ++ [t] else acc) acc
      = acc ++ l.filterMap lineText := by
  induction l with
  | nil => intro acc; simp
  | cons b l ih =>
    intro acc
    rw [List.foldl_cons, List.filterMap_cons]
    simp only [lineText]
    split
    · rw [ih, List.append_assoc]; rfl
    · rw [ih]

/-- Two LINE blocks with tops 0.05 and 0.10 at the same left coordinate. -/
def lineEx005 : Block :=
  { id := "l1", blockType := "LINE", text := some "goes before",
    top := some (Rat.mk' 1 20 (by decide) (Nat.coprime_one_left 20)),
    left := some 0 }

def lineEx010 : Block :=
  { id := "l2", blockType := "LINE", text := some "goes after",
    top := some (Rat.mk' 1 10 (by decide) (Nat.coprime_one_left 10)),
    left := some 0 }

/-- C6: the free-text reconstructor joins the stripped texts of the LINE
    blocks, one per line, after a sort that (i) is a permutation of the
    input, (ii) is ordered by ascending (top, left) lexicographically, and
    (iii) is stable: blocks with any fixed (top, left) key keep their input
    order.  Blocks whose stripped text is empty contribute no line.  In
    particular the block with top 0.05 comes before the block with top
    0.10 at equal left. -/
theorem extractTextContent_spec (blocks textBlocks : List Block) :
    extractTextContent blocks textBlocks
      = pyJoin "\n" ((sortBy lineLe textBlocks).filterMap lineText)
    ∧ (sortBy lineLe textBlocks).Perm textBlocks
    ∧ List.Chain' (fun a b => lineLe a b = true) (sortBy lineLe textBlocks)
    ∧ (∀ k : ℚ × ℚ, (sortBy lineLe textBlocks).filter (fun b => decide (lineKey b = k))
        = textBlocks.filter (fun b => decide (lineKey b = k)))
    ∧ sortBy lineLe [lineEx010, lineEx005] = [lineEx005, lineEx010]
    ∧ extractTextContent [] [lineEx010, lineEx005] = "goes before\ngoes after" := by
  refine ⟨?_, sortBy_perm lineLe textBlocks, sortBy_chain' lineLe lineLe_total _,
    fun k => sortBy_filter_key lineLe lineKey lineLe_of_key_eq k textBlocks,
    by decide, by decide⟩
  rw [extractTextContent, textLines_foldl]
  rfl

theorem pyIdx_lt (len : Nat) (i : Int) (n : Nat) (h : pyIdx len i = some n) : n < len := by
  rw [pyIdx] at h
  by_cases hi : i < 0
  · rw [if_pos hi] at h
    split at h
    · rename_i hj; injection h with h; omega
    · exact absurd h (by simp)
  · rw [if_neg hi] at h
    split at h
    · rename_i hj; injection h with h; omega
    · exact absurd h (by simp)

theorem pyIdx_neg_one (len : Nat) (h : 0 < len) : pyIdx len (-1) = some (len - 1) := by
  rw [pyIdx]
  rw [if_pos (show (-1 : Int) < 0 by omega)]
  rw [if_pos (show (0 : Int) ≤ (len : Int) + -1 ∧ (len : Int) + -1 < (len : Int) by omega)]
  congr 1
  omega

theorem pyIdx_of_nat (len : Nat) (k : Nat) (h1 : 1 ≤ k) (h2 : k ≤ len) :
    pyIdx len ((k : Int) - 1) = some (k - 1) := by
  rw [pyIdx]
  rw [if_neg (show ¬ ((k : Int) - 1 < 0) by omega)]
  rw [if_pos (show (0 : Int) ≤ (k : Int) - 1 ∧ (k : Int) - 1 < (len : Int) by omega)]
  congr 1
  omega

theorem length_pySet {α : Type} (l : List α) (i : Int) (v : α) :
    (pySet l i v).length = l.length := by
  rw [pySet]
  rcases h : pyIdx l.length i with _ | n
  · rfl
  · simp

theorem length_pySet2 {α : Type} (g : List (List α)) (ri ci : Int) (v : α) :
    (pySet2 g ri ci v).length = g.length := by
  rw [pySet2]
  rcases h : pyIdx g.length ri with _ | r
  · rfl
  · simp

theorem rect_pySet2 {α : Type} (g : List (List α)) (ri ci : Int) (v : α) (n : Nat)
    (hrect : ∀ row ∈ g, row.length = n) :
    ∀ row ∈ pySet2 g ri ci v, row.length = n := by
  rw [pySet2]
  rcases h : pyIdx g.length ri with _ | r
  · exact hrect
  · intro row hm
    rcases List.mem_or_eq_of_mem_set hm with hm' | hm'
    · exact hrect row hm'
    · have hr := pyIdx_lt _ _ _ h
      rw [hm', length_pySet, List.getD_eq_getElem g [] hr]
      exact hrect _ (List.getElem_mem hr)

theorem pySet_none {α : Type} (l : List α) (i : Int) (v : α)
    (h : pyIdx l.length i = none) : pySet l i v = l := by
  rw [pySet, h]

theorem pySet_some {α : Type} (l : List α) (i : Int) (v : α) (n : Nat)
    (h : pyIdx l.length i = some n) : pySet l i v = l.set n v := by
  rw [pySet, h]

theorem pySet2_none {α : Type} (g : List (List α)) (ri ci : Int) (v : α)
    (h : pyIdx g.length ri = none) : pySet2 g ri ci v = g := by
  rw [pySet2, h]

theorem pySet2_some {α : Type} (g : List (List α)) (ri ci : Int) (v : α) (r : Nat)
    (h : pyIdx g.length ri = some r) :
    pySet2 g ri ci v = g.set r (pySet (g.getD r []) ci v) := by
  rw [pySet2, h]

theorem gridGet_pySet2 {α : Type} (g : List (List α)) (ri ci : Int) (v : α) (n i j : Nat)
    (hrect : ∀ row ∈ g, row.length = n) :
    gridGet (pySet2 g ri ci v) i j =
      if pyIdx g.length ri = some i ∧ pyIdx n ci = some j
      then some v
      else gridGet g i j := by
  rcases hri : pyIdx g.length ri with _ | r
  · rw [pySet2_none _ _ _ _ hri, if_neg (by simp [hri])]
  · have hr := pyIdx_lt _ _ _ hri
    have hrow : g.getD r [] = g[r] := List.getD_eq_getElem g [] hr
    have hlen : (g[r]).length = n := hrect _ (List.getElem_mem hr)
    rw [pySet2_some _ _ _ _ _ hri]
    rcases hci : pyIdx n ci with _ | cc
    · have hnone : pySet (g.getD r []) ci v = g[r] := by
        rw [pySet, hrow, hlen, hci]
      rw [hnone, if_neg (by simp)]
      rw [gridGet, gridGet, List.getElem?_set]
      by_cases hij : r = i
      · subst hij
        rw [if_pos rfl, if_pos hr, List.getElem?_eq_getElem hr]
      · rw [if_neg hij]
    · have hcc := pyIdx_lt _ _ _ hci
      have hrow' : pySet (g.getD r []) ci v = (g[r]).set cc v := by
        rw [pySet, hrow, hlen, hci]
      rw [hrow', gridGet, gridGet, List.getElem?_set]
      by_cases hij : r = i
      · subst hij
        rw [if_pos rfl, if_pos hr, List.getElem?_eq_getElem hr]
        simp only [Option.some_bind]
        rw [List.getElem?_set]
        by_cases hj : cc = j
        · subst hj
          rw [if_pos rfl, if_pos (by rw [hlen]; exact hcc), if_pos (by simp)]
        · rw [if_neg hj, if_neg (by intro hp; exact hj (Option.some.inj hp.2))]
      · rw [if_neg hij, if_neg (by intro hp; exact hij (Option.some.inj hp.1))]

theorem gridGet_foldl_pySet2 {α β : Type} (ri ci : β → Int) (txt : β → α) (n : Nat) :
    ∀ (xs : List β) (g : List (List α)), (∀ row ∈ g, row.length = n) → ∀ (i j : Nat),
      gridGet (xs.foldl (fun g x => pySet2 g (ri x) (ci x) (txt x)) g) i j =
        match (xs.filter (fun x =>
            decide (pyIdx g.length (ri x) = some i ∧ pyIdx n (ci x) = some j))).getLast? with
        | some x => some (txt x)
        | none => gridGet g i j := by
  intro xs
  induction xs with
  | nil => intro g hrect i j; rfl
  | cons x xs ih =>
    intro g hrect i j
    rw [List.foldl_cons]
    have hrect' := rect_pySet2 g (ri x) (ci x) (txt x) n hrect
    have hlen' : (pySet2 g (ri x) (ci x) (txt x)).length = g.length :=
      length_pySet2 g (ri x) (ci x) (txt x)
    rw [ih _ hrect' i j]
    simp only [hlen']
    rw [List.filter_cons]
    rcases hx : decide (pyIdx g.length (ri x) = some i ∧ pyIdx n (ci x) = some j) with _ | _
    · simp only [Bool.false_eq_true, if_false]
      rcases hlast : (xs.filter (fun x =>
          decide (pyIdx g.length (ri x) = some i ∧ pyIdx n (ci x) = some j))).getLast? with _ | y
      · rw [gridGet_pySet2 g (ri x) (ci x) (txt x) n i j hrect,
          if_neg (of_decide_eq_false hx)]
      · rfl
    · simp only [if_true]
      rcases hlast : (xs.filter (fun x =>
          decide (pyIdx g.length (ri x) = some i ∧ pyIdx n (ci x) = some j))).getLast? with _ | y
      · rw [List.getLast?_eq_none_iff] at hlast
        rw [hlast]
        rw [gridGet_pySet2 g (ri x) (ci x) (txt x) n i j hrect,
          if_pos (of_decide_eq_true hx)]
        simp
      · have hne : xs.filter (fun x =>
            decide (pyIdx g.length (ri x) = some i ∧ pyIdx n (ci x) = some j)) ≠ [] := by
          intro hh; rw [hh] at hlast; simp at hlast
        rcases hl : xs.filter (fun x =>
            decide (pyIdx g.length (ri x) = some i ∧ pyIdx n (ci x) = some j)) with _ | ⟨b, bs⟩
        · exact absurd hl hne
        · rw [hl] at hlast
          rw [List.getLast?_cons_cons, hlast]

theorem foldl_max_init : ∀ (l : List Nat) (a : Nat), a ≤ l.foldl max a := by
  intro l
  induction l with
  | nil => intro a; exact Nat.le_refl a
  | cons x l ih => intro a; exact le_trans (Nat.le_max_left a x) (ih (max a x))

theorem foldl_max_of_mem : ∀ (l : List Nat) (a x : Nat), x ∈ l → x ≤ l.foldl max a := by
  intro l
  induction l with
  | nil => intro a x hx; exact absurd hx (List.not_mem_nil x)
  | cons y l ih =>
    intro a x hx
    rcases List.mem_cons.1 hx with h | h
    · subst h
      exact le_trans (Nat.le_max_right a x) (foldl_max_init l (max a x))
    · exact ih (max a y) x h

theorem le_maxRowOf (cells : List Block) (c : Block) (h : c ∈ cells) :
    c.rowIndex.getD 0 ≤ maxRowOf cells := by
  rw [maxRowOf, ← List.foldl_map (fun c : Block => c.rowIndex.getD 0) max]
  exact foldl_max_of_mem _ 0 _ (List.mem_map_of_mem _ h)

theorem le_maxColOf (cells : List Block) (c : Block) (h : c ∈ cells) :
    c.columnIndex.getD 0 ≤ maxColOf cells := by
  rw [maxColOf, ← List.foldl_map (fun c : Block => c.columnIndex.getD 0) max]
  exact foldl_max_of_mem _ 0 _ (List.mem_map_of_mem _ h)

theorem cellLe_of_key_eq : ∀ a b : Block, cellKey a = cellKey b → cellLe a b = true := by
  intro a b h
  rw [cellLe, decide_eq_true_eq]
  exact Or.inr ⟨congrArg Prod.fst h, le_of_eq (congrArg Prod.snd h)⟩

/-- C9: a resolved CELL child that lacks its RowIndex, its ColumnIndex,
    or both, is neither an error nor dropped: each missing index defaults
    to 0, so the corresponding grid coordinate is -1 and Python's negative
    indexing places the cell's text into the last row (missing RowIndex),
    the last column (missing ColumnIndex), or the last row and last column
    (both missing) of the allocated (rectangular, non-empty) grid, at the
    1-based position given by whichever index is present. -/
theorem placeCell_missing_indices (bm : String → Option Block)
    (g : List (List (Option String))) (cell : Block) (n : Nat)
    (hg : 0 < g.length) (hn : 0 < n)
    (hrect : ∀ row ∈ g, row.length = n) :
    (cell.rowIndex = none → ((cell.rowIndex.getD 0 : Int) - 1) = -1)
    ∧ (cell.columnIndex = none → ((cell.columnIndex.getD 0 : Int) - 1) = -1)
    ∧ (∀ c : Nat, cell.rowIndex = none → cell.columnIndex = some c →
        1 ≤ c → c ≤ n →
        gridGet (placeCell bm g cell) (g.length - 1) (c - 1)
          = some (some (getTextFromBlock cell bm)))
    ∧ (∀ r : Nat, cell.rowIndex = some r → cell.columnIndex = none →
        1 ≤ r → r ≤ g.length →
        gridGet (placeCell bm g cell) (r - 1) (n - 1)
          = some (some (getTextFromBlock cell bm)))
    ∧ (cell.rowIndex = none → cell.columnIndex = none →
        gridGet (placeCell bm g cell) (g.length - 1) (n - 1)
          = some (some (getTextFromBlock cell bm))) := by
  refine ⟨fun hr => by rw [hr]; rfl, fun hc => by rw [hc]; rfl, ?_, ?_, ?_⟩
  · intro c hr hc hc1 hcn
    have h1 : ((cell.rowIndex.getD 0 : Int) - 1) = -1 := by rw [hr]; rfl
    have h2 : ((cell.columnIndex.getD 0 : Int) - 1) = (c : Int) - 1 := by rw [hc]; rfl
    have hpc : placeCell bm g cell
        = pySet2 g (-1) ((c : Int) - 1) (some (getTextFromBlock cell bm)) := by
      rw [placeCell, h1, h2]
    rw [hpc, gridGet_pySet2 g (-1) ((c : Int) - 1) _ n _ _ hrect,
      if_pos ⟨pyIdx_neg_one _ hg, pyIdx_of_nat n c hc1 hcn⟩]
  · intro r hr hc hr1 hrg
    have h1 : ((cell.rowIndex.getD 0 : Int) - 1) = (r : Int) - 1 := by rw [hr]; rfl
    have h2 : ((cell.columnIndex.getD 0 : Int) - 1) = -1 := by rw [hc]; rfl
    have hpc : placeCell bm g cell
        = pySet2 g ((r : Int) - 1) (-1) (some (getTextFromBlock cell bm)) := by
      rw [placeCell, h1, h2]
    rw [hpc, gridGet_pySet2 g ((r : Int) - 1) (-1) _ n _ _ hrect,
      if_pos ⟨pyIdx_of_nat g.length r hr1 hrg, pyIdx_neg_one _ hn⟩]
  · intro hr hc
    have h1 : ((cell.rowIndex.getD 0 : Int) - 1) = -1 := by rw [hr]; rfl
    have h2 : ((cell.columnIndex.getD 0 : Int) - 1) = -1 := by rw [hc]; rfl
    have hpc : placeCell bm g cell
        = pySet2 g (-1) (-1) (some (getTextFromBlock cell bm)) := by
      rw [placeCell, h1, h2]
    rw [hpc, gridGet_pySet2 g (-1) (-1) _ n _ _ hrect,
      if_pos ⟨pyIdx_neg_one _ hg, pyIdx_neg_one _ hn⟩]

/-- A CELL block with no RowIndex and no ColumnIndex. -/
def c9Cell : Block := { id := "c9", blockType := "CELL", text := some "stray" }

/-- A CELL block whose RowIndex is missing but whose ColumnIndex is 2. -/
def c9CellRow : Block :=
  { id := "c9r", blockType := "CELL", text := some "rowless",
    columnIndex := some 2 }

/-- A CELL block whose RowIndex is 1 but whose ColumnIndex is missing. -/
def c9CellCol : Block :=
  { id := "c9c", blockType := "CELL", text := some "colless",
    rowIndex := some 1 }

def c9Grid : List (List (Option String)) :=
  [[some "w", some "x"], [some "y", some "z"]]

/-- C9, witness: on a concrete 2×2 grid, a cell missing only its RowIndex
    lands in the last row at its given column, a cell missing only its
    ColumnIndex lands in its given row at the last column, and a cell
    missing both lands in the last row and last column. -/
theorem placeCell_missing_indices_witness :
    gridGet (placeCell (blockMap [c9CellRow]) c9Grid c9CellRow) 1 1
      = some (some "rowless")
    ∧ gridGet (placeCell (blockMap [c9CellCol]) c9Grid c9CellCol) 0 1
      = some (some "colless")
    ∧ gridGet (placeCell (blockMap [c9Cell]) c9Grid c9Cell) 1 1
      = some (some "stray") := by
  refine ⟨?_, ?_, ?_⟩
  · have h := (placeCell_missing_indices (blockMap [c9CellRow]) c9Grid c9CellRow 2
      (by decide) (by decide) (by decide)).2.2.1 2 rfl rfl (by decide) (by decide)
    exact h.trans (by decide)
  · have h := (placeCell_missing_indices (blockMap [c9CellCol]) c9Grid c9CellCol 2
      (by decide) (by decide) (by decide)).2.2.2.1 1 rfl rfl (by decide) (by decide)
    exact h.trans (by decide)
  · have h := (placeCell_missing_indices (blockMap [c9Cell]) c9Grid c9Cell 2
      (by decide) (by decide) (by decide)).2.2.2.2 rfl rfl
    exact h.trans (by decide)

/-- C10: when two resolved CELL children of a TABLE share the same
    (RowIndex, ColumnIndex) pair (r, c) — with 1-based indices all present
    and positive, and no other cell at that pair — exactly one text
    survives at grid position (r-1, c-1): the one of the cell occurring
    later in the CHILD resolution order, which the stable sort keeps after
    the earlier one and whose write therefore overwrites it. -/
theorem tableGrid_duplicate_cell_last_wins
    (blocks : List Block) (tableBlock c1 c2 : Block) (l1 l2 l3 : List Block) (r c : Nat)
    (hres : resolvedCells (blockMap blocks) tableBlock = l1 ++ c1 :: (l2 ++ c2 :: l3))
    (h1 : cellKey c1 = (r, c)) (h2 : cellKey c2 = (r, c))
    (hr : 1 ≤ r) (hc : 1 ≤ c)
    (hothers : ∀ d ∈ l1 ++ l2 ++ l3, cellKey d ≠ (r, c))
    (hpos : ∀ d ∈ resolvedCells (blockMap blocks) tableBlock,
      1 ≤ (cellKey d).1 ∧ 1 ≤ (cellKey d).2) :
    gridGet (tableGrid (blockMap blocks) (resolvedCells (blockMap blocks) tableBlock))
      (r - 1) (c - 1) = some (some (getTextFromBlock c2 (blockMap blocks))) := by
  set bm := blockMap blocks with hbm
  set cells := resolvedCells bm tableBlock with hcellsdef
  set s := sortBy cellLe cells with hsdef
  set n := maxColOf s + 1 with hn
  set m := maxRowOf s + 1 with hm
  set g0 : List (List (Option String)) := List.replicate m (List.replicate n none) with hg0
  have hfold : tableGrid bm cells
      = s.foldl
          (fun g x => pySet2 g ((x.rowIndex.getD 0 : Int) - 1)
            ((x.columnIndex.getD 0 : Int) - 1) (some (getTextFromBlock x bm))) g0 := rfl
  have hrect0 : ∀ row ∈ g0, row.length = n := by
    intro row hrow
    rw [hg0] at hrow
    rw [List.eq_of_mem_replicate hrow]
    exact List.length_replicate _ _
  have hg0len : g0.length = m := by rw [hg0]; exact List.length_replicate _ _
  rw [hfold, gridGet_foldl_pySet2 _ _ _ n s g0 hrect0 (r - 1) (c - 1)]
  have hmems : ∀ d, d ∈ s → d ∈ cells :=
    fun d hd => ((sortBy_perm cellLe cells).mem_iff).1 hd
  have hcong : s.filter (fun x =>
        decide (pyIdx g0.length ((x.rowIndex.getD 0 : Int) - 1) = some (r - 1)
          ∧ pyIdx n ((x.columnIndex.getD 0 : Int) - 1) = some (c - 1)))
      = s.filter (fun x => decide (cellKey x = (r, c))) := by
    apply List.filter_congr
    intro d hd
    have hdk := hpos d (hmems d hd)
    have hdk1 : 1 ≤ d.rowIndex.getD 0 := hdk.1
    have hdk2 : 1 ≤ d.columnIndex.getD 0 := hdk.2
    have hdr1 : d.rowIndex.getD 0 ≤ maxRowOf s := le_maxRowOf s d hd
    have hdc1 : d.columnIndex.getD 0 ≤ maxColOf s := le_maxColOf s d hd
    have hb1 : d.rowIndex.getD 0 ≤ m := by omega
    have hb2 : d.columnIndex.getD 0 ≤ n := by omega
    rw [hg0len]
    rw [pyIdx_of_nat m (d.rowIndex.getD 0) hdk1 hb1,
      pyIdx_of_nat n (d.columnIndex.getD 0) hdk2 hb2]
    rw [decide_eq_decide]
    constructor
    · rintro ⟨ha, hb⟩
      injection ha with ha
      injection hb with hb
      rw [cellKey]
      have e1 : d.rowIndex.getD 0 = r := by omega
      have e2 : d.columnIndex.getD 0 = c := by omega
      rw [e1, e2]
    · intro hkey
      have e1 : d.rowIndex.getD 0 = r := congrArg Prod.fst hkey
      have e2 : d.columnIndex.getD 0 = c := congrArg Prod.snd hkey
      rw [e1, e2]
      exact ⟨rfl, rfl⟩
  rw [hcong, hsdef, sortBy_filter_key cellLe cellKey cellLe_of_key_eq (r, c) cells]
  rw [hres, List.filter_append, List.filter_cons, List.filter_append, List.filter_cons]
  have hp1 : l1.filter (fun x => decide (cellKey x = (r, c))) = [] := by
    rw [List.filter_eq_nil_iff]
    intro d hd
    simp only [decide_eq_true_eq]
    exact hothers d (by simp [hd])
  have hp2 : l2.filter (fun x => decide (cellKey x = (r, c))) = [] := by
    rw [List.filter_eq_nil_iff]
    intro d hd
    simp only [decide_eq_true_eq]
    exact hothers d (by simp [hd])
  have hp3 : l3.filter (fun x => decide (cellKey x = (r, c))) = [] := by
    rw [List.filter_eq_nil_iff]
    intro d hd
    simp only [decide_eq_true_eq]
    exact hothers d (by simp [hd])
  rw [hp1, hp2, hp3, if_pos (by simp [h1]), if_pos (by simp [h2])]
  rfl

/-- A TABLE with two CELL children at the same coordinates (1, 1). -/
def c10Table : Block :=
  { id := "T10", blockType := "TABLE",
    relationships := some [⟨"CHILD", ["dA", "dB"]⟩] }

def c10CellA : Block :=
  { id := "dA", blockType := "CELL", text := some "early",
    rowIndex := some 1, columnIndex := some 1 }

def c10CellB : Block :=
  { id := "dB", blockType := "CELL", text := some "late",
    rowIndex := some 1, columnIndex := some 1 }

def c10Blocks : List Block := [c10Table, c10CellA, c10CellB]

/-- C10, witness: of two cells at (1,1), the later one's text survives. -/
theorem tableGrid_duplicate_cell_last_wins_witness :
    gridGet (tableGrid (blockMap c10Blocks) (resolvedCells (blockMap c10Blocks) c10Table))
      0 0 = some (some "late") := by
  have h := tableGrid_duplicate_cell_last_wins c10Blocks c10Table c10CellA c10CellB
    [] [] [] 1 1 (by decide) rfl rfl (by decide) (by decide) (by decide) (by decide)
  exact h.trans (by decide)

theorem ne_of_data_head {s t : String} (h : s.data.head? ≠ t.data.head?) : s ≠ t :=
  fun he => h (congrArg (fun x => x.data.head?) he)

theorem pairLine_head (k v : String) :
    ("**" ++ k ++ ":** " ++ v).data.head? = some '*' := by
  rw [String.data_append, String.data_append, String.data_append]
  rfl

theorem prefixed_head (x : String) : ("| " ++ x ++ " |").data.head? = some '|' := by
  rw [String.data_append, String.data_append]
  rfl

theorem pyJoin_cons_head (sep a : String) (l : List String) (h : a.data ≠ []) :
    (pyJoin sep (a :: l)).data.head? = a.data.head? := by
  cases l with
  | nil => rfl
  | cons b t =>
    rw [pyJoin, String.data_append, String.data_append]
    rcases ha : a.data with _ | ⟨x, xs⟩
    · exact absurd ha h
    · rfl

/-- A rendered table is empty or starts with a pipe character. -/
theorem extractTableContent_shape (blocks : List Block) (tableBlock : Block)
    (cellBlocks : List Block) :
    extractTableContent blocks tableBlock cellBlocks = ""
    ∨ (extractTableContent blocks tableBlock cellBlocks).data.head? = some '|' := by
  simp only [extractTableContent]
  split
  · exact Or.inl rfl
  · split
    · exact Or.inl rfl
    · split
      · exact Or.inl rfl
      · right
        rw [renderTable, pyJoin_cons_head]
        · rw [renderRow]
          exact prefixed_head _
        · rw [renderRow, String.data_append, String.data_append]
          simp

theorem pairLines_shape (blocks : List Block) :
    ∀ p ∈ pairLines blocks, p.data.head? = some '*' := by
  intro p hp
  rw [pairLines] at hp
  rcases List.mem_map.1 hp with ⟨q, _, rfl⟩
  exact pairLine_head q.1 q.2

theorem tableLines_shape (blocks : List Block) :
    ∀ s ∈ tableLines blocks, s = "" ∨ s.data.head? = some '|' := by
  rw [tableLines]
  suffices h : ∀ (tbs : List Block) (acc : List String),
      (∀ s ∈ acc, s = "" ∨ s.data.head? = some '|') →
      ∀ s ∈ tbs.foldl (fun acc tb =>
          let tc := extractTableContent blocks tb (cellBlocksOf blocks)
          if tc ≠ "" then acc ++ [tc, ""] else acc) acc,
        s = "" ∨ s.data.head? = some '|' by
    exact h _ [] (by simp)
  intro tbs
  induction tbs with
  | nil => intro acc hacc; exact hacc
  | cons tb tbs ih =>
    intro acc hacc s hs
    rw [List.foldl_cons] at hs
    refine ih _ ?_ s hs
    intro x hx
    dsimp only at hx
    by_cases htc : extractTableContent blocks tb (cellBlocksOf blocks) = ""
    · rw [if_neg (by simp [htc])] at hx
      exact hacc x hx
    · rw [if_pos htc] at hx
      rcases List.mem_append.1 hx with h' | h'
      · exact hacc x h'
      · rcases List.mem_cons.1 h' with h'' | h''
        · subst h''
          rcases extractTableContent_shape blocks tb (cellBlocksOf blocks) with he | hh
          · exact absurd he htc
          · exact Or.inr hh
        · rcases List.mem_cons.1 h'' with h3 | h3
          · exact Or.inl h3
          · exact absurd h3 (List.not_mem_nil x)

theorem mem_responseResultList (blocks : List Block) (docType : String) (H : String) :
    H ∈ responseResultList blocks docType ↔
      H = "## " ++ docType ++ " Document Analysis\n"
      ∨ (keyValueBlocksOf blocks ≠ [] ∧
          (H = "### Key-Value Pairs (Forms)" ∨ H = "" ∨ H ∈ pairLines blocks))
      ∨ (tableBlocksOf blocks ≠ [] ∧
          (H = "### Tables" ∨ H = "" ∨ H ∈ tableLines blocks))
      ∨ (textBlocksOf blocks ≠ [] ∧
          (H = "### Text Content" ∨ H = ""
            ∨ H = extractTextContent blocks (textBlocksOf blocks))) := by
  rw [responseResultList]
  by_cases h1 : keyValueBlocksOf blocks = [] <;>
    by_cases h2 : tableBlocksOf blocks = [] <;>
      by_cases h3 : textBlocksOf blocks = [] <;>
        simp [h1, h2, h3, List.mem_append, or_assoc] <;> tauto

/-- C3 (amended): with the document type one of the two the tool uses, and
    assuming the reconstructed free text is not literally one of the three
    subsection headers, each subsection header appears in the per-document
    report exactly when at least one block of the corresponding TYPE
    exists: KEY_VALUE_SET blocks for "Key-Value Pairs", TABLE blocks for
    "Tables", LINE blocks for "Text Content".  When such blocks exist but
    produce no content, the bare header IS still emitted. -/
theorem responseResultList_subsections (blocks : List Block) (docType : String)
    (hdoc : docType = "INVOICE" ∨ docType = "PURCHASE ORDER")
    (htxt : ∀ H ∈ (["### Key-Value Pairs (Forms)", "### Tables",
        "### Text Content"] : List String),
      extractTextContent blocks (textBlocksOf blocks) ≠ H) :
    ("### Key-Value Pairs (Forms)" ∈ responseResultList blocks docType
        ↔ keyValueBlocksOf blocks ≠ [])
    ∧ ("### Tables" ∈ responseResultList blocks docType ↔ tableBlocksOf blocks ≠ [])
    ∧ ("### Text Content" ∈ responseResultList blocks docType
        ↔ textBlocksOf blocks ≠ []) := by
  refine ⟨⟨?_, ?_⟩, ⟨?_, ?_⟩, ⟨?_, ?_⟩⟩
  · intro hmem
    rw [mem_responseResultList] at hmem
    rcases hmem with h | ⟨hkv, _⟩ | ⟨_, h | h | h⟩ | ⟨_, h | h | h⟩
    · rcases hdoc with rfl | rfl <;> exact absurd h (by decide)
    · exact hkv
    · exact absurd h (by decide)
    · exact absurd h (by decide)
    · rcases tableLines_shape blocks _ h with he | hh
      · exact absurd he (by decide)
      · exact absurd hh (by decide)
    · exact absurd h (by decide)
    · exact absurd h (by decide)
    · exact absurd h.symm (htxt _ (by decide))
  · intro hkv
    rw [mem_responseResultList]
    exact Or.inr (Or.inl ⟨hkv, Or.inl rfl⟩)
  · intro hmem
    rw [mem_responseResultList] at hmem
    rcases hmem with h | ⟨_, h | h | h⟩ | ⟨htb, _⟩ | ⟨_, h | h | h⟩
    · rcases hdoc with rfl | rfl <;> exact absurd h (by decide)
    · exact absurd h (by decide)
    · exact absurd h (by decide)
    · exact absurd (pairLines_shape blocks _ h) (by decide)
    · exact htb
    · exact absurd h (by decide)
    · exact absurd h (by decide)
    · exact absurd h.symm (htxt _ (by decide))
  · intro htb
    rw [mem_responseResultList]
    exact Or.inr (Or.inr (Or.inl ⟨htb, Or.inl rfl⟩))
  · intro hmem
    rw [mem_responseResultList] at hmem
    rcases hmem with h | ⟨_, h | h | h⟩ | ⟨_, h | h | h⟩ | ⟨htx, _⟩
    · rcases hdoc with rfl | rfl <;> exact absurd h (by decide)
    · exact absurd h (by decide)
    · exact absurd h (by decide)
    · exact absurd (pairLines_shape blocks _ h) (by decide)
    · exact absurd h (by decide)
    · exact absurd h (by decide)
    · rcases tableLines_shape blocks _ h with he | hh
      · exact absurd he (by decide)
      · exact absurd hh (by decide)
    · exact htx
  · intro htx
    rw [mem_responseResultList]
    exact Or.inr (Or.inr (Or.inr ⟨htx, Or.inl rfl⟩))

/-- A KEY_VALUE_SET KEY block with no text and no relationships: it yields
    no pair, but its presence alone triggers the subsection header. -/
def c3Key : Block :=
  { id := "k3", blockType := "KEY_VALUE_SET", entityTypes := some ["KEY"] }

def c3Blocks : List Block := [c3Key]

/-- C3, counterexample to the claim as stated: a block collection whose
    only block is a contentless KEY yields zero extracted pairs, yet the
    "Key-Value Pairs" subsection header is emitted — a bare header for an
    empty subsection. -/
theorem responseResultList_bare_header :
    extractKeyValuePairs c3Blocks (keyValueBlocksOf c3Blocks) = []
    ∧ pairLines c3Blocks = []
    ∧ "### Key-Value Pairs (Forms)" ∈ responseResultList c3Blocks "INVOICE" := by
  refine ⟨?_, ?_, ?_⟩ <;> decide

/-- C3, witness for the amended theorem at a concrete input. -/
theorem responseResultList_subsections_witness :
    ("### Key-Value Pairs (Forms)" ∈ responseResultList c3Blocks "INVOICE"
        ↔ keyValueBlocksOf c3Blocks ≠ [])
    ∧ ("### Tables" ∈ responseResultList c3Blocks "INVOICE"
        ↔ tableBlocksOf c3Blocks ≠ [])
    ∧ ("### Text Content" ∈ responseResultList c3Blocks "INVOICE"
        ↔ textBlocksOf c3Blocks ≠ []) :=
  responseResultList_subsections c3Blocks "INVOICE" (Or.inl rfl) (by decide)

theorem errSplit (lit mid : String) (h : lit = "Error" ++ mid) (m : String) :
    lit ++ m = "Error" ++ (mid ++ m) := by
  rw [h, String.append_assoc]

theorem runAfterBucket_ok_shape (env : Env) (s : String)
    (h : runAfterBucket env = .ok s) :
    (∃ t, s = "Error" ++ t) ∨ (∃ t, s = "# INVOICE DOCUMENT ANALYSIS\n" ++ t) := by
  rw [runAfterBucket] at h
  split at h
  · injection h with h
    exact Or.inl ⟨_, h.symm.trans (errSplit _ " uploading files to S3: " (by decide) _)⟩
  · exact absurd h (by simp)
  · split at h
    · injection h with h
      exact Or.inl ⟨_, h.symm.trans (errSplit _ " uploading files to S3: " (by decide) _)⟩
    · exact absurd h (by simp)
    · split at h
      · injection h with h
        exact Or.inl ⟨_, h.symm.trans
          (errSplit _ " analyzing documents with Textract: " (by decide) _)⟩
      · exact absurd h (by simp)
      · split at h
        · injection h with h
          exact Or.inl ⟨_, h.symm.trans
            (errSplit _ " analyzing documents with Textract: " (by decide) _)⟩
        · exact absurd h (by simp)
        · split at h
          · injection h with h
            subst h
            exact Or.inr ⟨_, by rw [finalReport, String.append_assoc, String.append_assoc]⟩
          · exact absurd h (by simp)
          · injection h with h
            subst h
            exact Or.inr ⟨_, by rw [finalReport, String.append_assoc, String.append_assoc]⟩

theorem runModel_ok_shape (env : Env) (s : String) (h : runModel env = .ok s) :
    (∃ t, s = "Error" ++ t) ∨ (∃ t, s = "# INVOICE DOCUMENT ANALYSIS\n" ++ t) := by
  rw [runModel] at h
  split at h
  · injection h with h
    exact Or.inl ⟨_, h.symm.trans
      (errSplit _ ": Invoice file not found at path: " (by decide) _)⟩
  · split at h
    · injection h with h
      exact Or.inl ⟨_, h.symm.trans
        (errSplit _ ": PO file not found at path: " (by decide) _)⟩
    · split at h
      · injection h with h
        exact Or.inl ⟨": AWS credentials not found. Please configure your AWS credentials.",
          h.symm.trans (by decide)⟩
      · injection h with h
        exact Or.inl ⟨_, h.symm.trans
          (errSplit _ " initializing AWS clients: " (by decide) _)⟩
      · split at h
        · split at h
          · split at h
            · injection h with h
              exact Or.inl ⟨_, h.symm.trans
                (errSplit _ " creating S3 bucket: " (by decide) _)⟩
            · exact runAfterBucket_ok_shape env s h
          · exact absurd h (by simp)
          · exact runAfterBucket_ok_shape env s h
        · exact runAfterBucket_ok_shape env s h

/-- C8: `_run` is total — every environment, including ones where any AWS
    step raises, yields a string — and every outcome other than the full
    success report is an error string prefixed "Error"; in particular any
    exception escaping the inner handlers is caught at the top level and
    converted to "Error processing documents with Textract: ...". -/
theorem run_total_error_or_report (env : Env) :
    (∃ s, run env = "Error" ++ s)
    ∨ (∃ s, run env = "# INVOICE DOCUMENT ANALYSIS\n" ++ s) := by
  rw [run]
  cases hm : runModel env with
  | ok s =>
    rcases runModel_ok_shape env s hm with ⟨t, ht⟩ | ⟨t, ht⟩
    · exact Or.inl ⟨t, ht⟩
    · exact Or.inr ⟨t, ht⟩
  | error m =>
    exact Or.inl ⟨_, errSplit _ " processing documents with Textract: " (by decide) m⟩
